import Mathlib

/-!
# Verification of the `file_processor` concurrent dispatch core

Shallow embedding of the Rust sources:

* `src/thread_pool.rs` — a fixed-size worker pool fed by a FIFO channel of
  tagged messages (`NewJob` / `Shutdown`), modelled as an explicit state
  machine (`PoolState`) whose nondeterministic worker scheduling is resolved
  by an explicit schedule (a list of worker ids).
* `src/analyzer.rs` — `analyze_file`, modelled as a pure function over an
  abstract file system (`FileDesc`): the results of the `metadata`, `open`,
  `read_line` and raw-`read` system calls become fields of the descriptor.
* `src/processor.rs` — `FileProcessor::process_dirs`, modelled as a
  transition system (`ProcState`) in which the dispatcher thread and the pool
  workers interleave; the cancellation flag is modelled by a threshold
  `cancelAt` on a global step counter (`time`), which captures exactly a
  monotone boolean: every load at `time < cancelAt` reads `false`, every
  load afterwards reads `true`.

Wall-clock durations (`Instant::elapsed`, the dispatcher's pacing sleep) are
abstracted to `0` / no-ops: no claim refers to real time.
-/

namespace FileProcessor

/-! ## analyzer.rs : data model -/

/-- Model of `ProcessingError` from analyzer.rs (lines 43-52). -/
structure ProcessingError where
  filename : String
  operation : String
  message : String
deriving DecidableEq, Repr

/-- Model of `FileStats` from analyzer.rs (lines 15-27). `char_frequencies` (a
`HashMap<char, usize>` in the source) is modelled as an association list
updated in first-insertion order, mirroring `entry(ch).or_insert(0) += 1`. -/
structure FileStats where
  word_count : Nat
  line_count : Nat
  char_frequencies : List (Char × Nat)
  size_bytes : Nat
deriving DecidableEq, Repr

/-- Constructor `FileStats::new` (analyzer.rs lines 31-38): all fields zero / empty. -/
def FileStats.new : FileStats :=
  { word_count := 0, line_count := 0, char_frequencies := [], size_bytes := 0 }

/-- Model of `FileAnalysis` from analyzer.rs (lines 65-77); `processing_time`
(a `Duration`) is abstracted to a `Nat`, always `0` in the model. -/
structure FileAnalysis where
  filename : String
  stats : FileStats
  errors : List ProcessingError
  processing_time : Nat
deriving DecidableEq, Repr

/-- Abstract description of what the OS returns for one file: the outcome of
each system call `analyze_file` performs, in the order the source performs
them.  `lines` are the strings successfully returned by `read_line`
(terminators included, as `read_line` yields them); `readLineErr` is a
pending UTF-8 decoding error hit after those lines (`none` = clean EOF).
`reopenOk`, `chunks` and `readRawErr` describe the binary-fallback re-open
and its sequence of successful `read` results (each at most the 8 KiB buffer)
followed by an optional read error. -/
structure FileDesc where
  metadata : Except String Nat
  openResult : Except String Unit
  lines : List String
  readLineErr : Option String
  reopenOk : Bool
  chunks : List (List Nat)
  readRawErr : Option String

/-- One `*freq.entry(ch).or_insert(0) += 1` update on the association-list model. -/
def bumpFreq : List (Char × Nat) → Char → List (Char × Nat)
  | [], c => [(c, 1)]
  | (d, n) :: rest, c =>
    if d = c then (d, n + 1) :: rest else (d, n) :: bumpFreq rest c

/-- Rust `line.split_whitespace().count()` (analyzer.rs line 149). -/
def wordCount (line : String) : Nat :=
  ((line.split Char.isWhitespace).filter (fun w => w ≠ "")).length

/-- Whitespace bytes used by the binary fallback's word splitter
(analyzer.rs line 195): space, newline, tab, carriage return. -/
def isWsByte (b : Nat) : Bool :=
  b = 32 || b = 10 || b = 9 || b = 13

/-- Rust `buf.split(ws).filter(non-empty).count()` for one raw chunk
(analyzer.rs lines 194-197). -/
def chunkWords (chunk : List Nat) : Nat :=
  ((chunk.splitOnP isWsByte).filter (fun s => s ≠ [])).length

/-- Folding one raw chunk of the binary fallback (analyzer.rs lines 180-198)
over the `(lines, words, freq)` accumulators. -/
def rawChunkStep (acc : Nat × Nat × List (Char × Nat)) (chunk : List Nat) :
    Nat × Nat × List (Char × Nat) :=
  (acc.1 + (chunk.filter (fun b => b = 10)).length,
   acc.2.1 + chunkWords chunk,
   chunk.foldl (fun f b => bumpFreq f (Char.ofNat b)) acc.2.2)

/-- Folding one UTF-8 line (analyzer.rs lines 145-155) over the
`(lines, words, freq)` accumulators. -/
def utf8LineStep (acc : Nat × Nat × List (Char × Nat)) (line : String) :
    Nat × Nat × List (Char × Nat) :=
  (acc.1 + 1, acc.2.1 + wordCount line,
   line.toList.foldl bumpFreq acc.2.2)

/-- Model of `analyze_file` (analyzer.rs lines 85-224) over the abstract file system
`fs`.  Faithful to the source's control flow: metadata first (size on
success, a `"metadata"` error on failure), then open (early return with the
stats collected so far and an `"open"` error on failure), then the UTF-8
line loop, then — only when `read_line` failed — the binary fallback, which
silently does nothing if the re-open fails. -/
def analyze_file (fs : String → FileDesc) (path : String) : FileAnalysis :=
  let fd := fs path
  let stats0 := FileStats.new
  let mOut : FileStats × List ProcessingError :=
    match fd.metadata with
    | .ok n => ({ stats0 with size_bytes := n }, [])
    | .error e =>
      (stats0, [{ filename := path, operation := "metadata", message := e }])
  match fd.openResult with
  | .error e =>
    { filename := path, stats := mOut.1,
      errors := mOut.2 ++ [{ filename := path, operation := "open", message := e }],
      processing_time := 0 }
  | .ok _ =>
    let utf8 := fd.lines.foldl utf8LineStep (0, 0, [])
    let afterLines : (Nat × Nat × List (Char × Nat)) × List ProcessingError × Bool :=
      match fd.readLineErr with
      | none => (utf8, mOut.2, true)
      | some e =>
        (utf8,
         mOut.2 ++ [{ filename := path, operation := "read_line", message := e }],
         false)
    let final : (Nat × Nat × List (Char × Nat)) × List ProcessingError :=
      if afterLines.2.2 then (afterLines.1, afterLines.2.1)
      else if fd.reopenOk then
        let raw := fd.chunks.foldl rawChunkStep afterLines.1
        match fd.readRawErr with
        | none => (raw, afterLines.2.1)
        | some e2 =>
          (raw,
           afterLines.2.1 ++
             [{ filename := path, operation := "read_raw", message := e2 }])
      else (afterLines.1, afterLines.2.1)
    { filename := path,
      stats := { word_count := final.1.2.1, line_count := final.1.1,
                 char_frequencies := final.1.2.2, size_bytes := mOut.1.size_bytes },
      errors := final.2,
      processing_time := 0 }

/-! ## thread_pool.rs : pool state machine -/

/-- Model of `Message` from thread_pool.rs (lines 26-32).  Jobs are abstracted to the
token they send on the completion channel (the shape used by the spec's
testable property and by `tests.rs`). -/
inductive PoolMsg where
  | newJob (tok : Nat)
  | stop
deriving DecidableEq, Repr

/-- The tokens of the `NewJob` messages of a queue segment, in order. -/
def jobToks (l : List PoolMsg) : List Nat :=
  l.filterMap (fun m => match m with | .newJob t => some t | .stop => none)

/-- State of a `ThreadPool` together with its workers and channel.

* `pending` — messages sent but not yet received, in FIFO order (the mpsc
  channel; the `Arc<Mutex<Receiver>>` means exactly one worker consumes the
  head at a time).
* `senderOpen` — whether `self.sender` is still `Some` (taken by `shutdown`).
* `alive` — per worker, whether its receive loop is still running.
* `handles` — per worker, whether `worker.thread` is still `Some`
  (taken by the join loop of `shutdown`).
* `log` — executed jobs, as `(worker id, token)` in dequeue order. -/
structure PoolState where
  pending : List PoolMsg
  senderOpen : Bool
  alive : List Bool
  handles : List Bool
  log : List (Nat × Nat)
deriving DecidableEq, Repr

/-- Constructor `ThreadPool::new(n)` (thread_pool.rs lines 39-59): empty queue, open
sender, `n` live workers each holding a join handle, nothing executed. -/
def initPool (n : Nat) : PoolState :=
  { pending := [], senderOpen := true,
    alive := List.replicate n true, handles := List.replicate n true, log := [] }

/-- Model of `ThreadPool::execute` (thread_pool.rs lines 62-71): enqueue a `NewJob`
only while the sender is still present; afterwards the job is silently
dropped. -/
def execute (s : PoolState) (tok : Nat) : PoolState :=
  if s.senderOpen then { s with pending := s.pending ++ [.newJob tok] } else s

/-- Submit a list of token-jobs in order. -/
def submitAll (s : PoolState) (toks : List Nat) : PoolState :=
  toks.foldl execute s

/-- One scheduling step of worker `w` (the loop body of `Worker::new`,
thread_pool.rs lines 131-154): a live worker locks the shared receiver and
takes the head message — executing a job, breaking on `Shutdown`, or breaking
on `RecvError` when the queue is empty and the sender is gone.  A dead or
out-of-range worker, or a live worker blocked on an empty open channel,
leaves the state unchanged. -/
def workerStep (s : PoolState) (w : Nat) : PoolState :=
  if s.alive.getD w false then
    match s.pending with
    | .newJob tok :: rest => { s with pending := rest, log := s.log ++ [(w, tok)] }
    | .stop :: rest => { s with pending := rest, alive := s.alive.set w false }
    | [] =>
      if s.senderOpen then s else { s with alive := s.alive.set w false }
  else s

/-- Run the pool under an explicit schedule of worker ids. -/
def runPool (s : PoolState) (sched : List Nat) : PoolState :=
  sched.foldl workerStep s

/-- Model of `ThreadPool::shutdown` (thread_pool.rs lines 77-93) as one function on
the pool state.  Phase 1 mirrors `self.sender.take()`: if the sender is
still present, one `Shutdown` sentinel per worker is appended to the FIFO
queue — *behind* every already-queued job — and the sender is dropped.
Phase 2 mirrors the join loop: joining blocks until the worker loops exit,
which (sender gone) happens only after every queued message has been
consumed; so when at least one worker is live the post-join state has an
empty queue, every queued job executed, all workers exited and every join
handle taken.  With no live worker the joins return at once and the queue is
untouched.  Which live worker executes which drained job is not observable
to the caller; the model attributes them to the first live worker. -/
def shutdown (s : PoolState) : PoolState :=
  let s1 := if s.senderOpen then
      { s with pending := s.pending ++ List.replicate s.alive.length PoolMsg.stop,
               senderOpen := false }
    else s
  if s1.alive.any id then
    { s1 with
        pending := [],
        log := s1.log ++ (jobToks s1.pending).map (fun t => (s1.alive.findIdx id, t)),
        alive := s1.alive.map (fun _ => false),
        handles := s1.handles.map (fun _ => false) }
  else { s1 with handles := s1.handles.map (fun _ => false) }

/-- Model of `ThreadPool::increase` (thread_pool.rs lines 98-113).  `none` models the
`unimplemented!` panic; the `n == 0` and already-shut-down guards return the
pool unchanged. -/
def increase (s : PoolState) (n : Nat) : Option PoolState :=
  if n = 0 then some s
  else if s.senderOpen = false then some s
  else none

/-! ## processor.rs : progress protocol and the dispatch machine -/

/-- Model of `ProgressMessage` from processor.rs (lines 18-30). -/
inductive ProgressMessage where
  | fileStarted (path : String)
  | fileCompleted (analysis : FileAnalysis)
  | fileFailed (path : String) (error : ProcessingError)
  | overallProgress (completed : Nat) (total : Nat)
deriving DecidableEq, Repr

/-- Model of `persist_progress` (processor.rs lines 203-206): the exact JSON text
`format!` produces; `fs::write` then replaces the file's contents with this
string wholesale. -/
def persist_progress (completed total : Nat) : String :=
  "\x7b\"completed\":" ++ toString completed ++ ",\"total\":" ++
    toString total ++ "\x7d"

/-- Rendering of a JSON object with the given integer fields, written from
the spec's words ("a JSON object with exactly two integer fields,
`completed` and `total`") for the refinement side of C9. -/
def jsonIntObj (fields : List (String × Nat)) : String :=
  "\x7b" ++
    String.intercalate ","
      (fields.map (fun f => "\"" ++ f.1 ++ "\":" ++ toString f.2)) ++
    "\x7d"

/-- Environment of one `process_dirs` call: the discovered file list (the
result of `collect_files`, fixed before the dispatcher thread starts,
processor.rs lines 81-82), the abstract file system seen by `analyze_file`,
the cancellation threshold (`cancelAt` is the value of the global step
counter from which every `load` of the `AtomicBool` reads `true` — the
exact behaviour of a monotone flag), and the per-write success of
`fs::write` in `persist_progress`. -/
structure ProcEnv where
  paths : List String
  fs : String → FileDesc
  cancelAt : Nat
  persistOk : Nat → Bool

/-- State of the dispatcher thread, the pool queue and the progress channel
during one `process_dirs` call (processor.rs lines 92-158).

* `rem` — paths the dispatcher's `for` loop has not yet reached.
* `dispDone` — the dispatcher thread has left its loop (exhaustion or the
  cancellation `break` at lines 97-99).
* `completed` — the dispatcher-local `completed` counter (line 93).
* `queue` — jobs submitted to the pool and not yet picked up, in FIFO
  order, identified by the captured `path_clone`.
* `chan` — every `ProgressMessage` sent so far, in channel order (the
  receiver observes exactly this sequence).
* `bytes` — the shared `total_bytes_processed` counter.
* `persistFile` — contents of the progress file (`none` = never written).
* `persistCount` — number of `persist_progress` attempts so far.
* `time` — global step counter; each transition advances it by one. -/
structure ProcState where
  rem : List String
  dispDone : Bool
  completed : Nat
  queue : List String
  chan : List ProgressMessage
  bytes : Nat
  persistFile : Option String
  persistCount : Nat
  time : Nat
deriving DecidableEq, Repr

/-- Initial state of a `process_dirs` call. -/
def procInit (env : ProcEnv) : ProcState :=
  { rem := env.paths, dispDone := false, completed := 0, queue := [],
    chan := [], bytes := 0, persistFile := none, persistCount := 0, time := 0 }

/-- Scheduling label: one iteration of the dispatcher loop, or one job
pickup by worker `w`.  The worker id does not influence the effect of a
step — which is exactly why every property below is independent of the
pool size. -/
inductive PLabel where
  | disp
  | work (w : Nat)

/-- One interleaved step of the `process_dirs` machine.

`disp` is one iteration of the dispatcher loop (processor.rs lines
95-157): check the cancellation flag (`break` when set), send
`FileStarted`, submit the job, increment `completed`, send
`OverallProgress`, attempt the persistence write (its failure changes
nothing but the file), and move to the next path.  The sends of one
iteration happen in one step: they are serialized inside the single
dispatcher thread, and no claim distinguishes interleavings inside one
iteration.

`work w` is one job execution (the closure at lines 113-138): dequeue the
FIFO head; if the cancellation flag is set, send `FileFailed` with the
`"cancelled"` operation and return without touching the analyzer or the
byte counter; otherwise run `analyze_file`, add its `size_bytes` to the
shared counter and send `FileCompleted`.  A step on an empty queue (a
blocked worker) or by the finished dispatcher only advances time. -/
def procStep (env : ProcEnv) (s : ProcState) : PLabel → ProcState
  | .disp =>
    if s.dispDone then { s with time := s.time + 1 }
    else
      match s.rem with
      | [] => { s with dispDone := true, time := s.time + 1 }
      | p :: ps =>
        if env.cancelAt ≤ s.time then
          { s with dispDone := true, time := s.time + 1 }
        else
          { s with
              rem := ps,
              chan := s.chan ++
                [ProgressMessage.fileStarted p,
                 ProgressMessage.overallProgress (s.completed + 1)
                   env.paths.length],
              queue := s.queue ++ [p],
              completed := s.completed + 1,
              persistFile :=
                if env.persistOk s.persistCount then
                  some (persist_progress (s.completed + 1) env.paths.length)
                else s.persistFile,
              persistCount := s.persistCount + 1,
              time := s.time + 1 }
  | .work _ =>
    match s.queue with
    | [] => { s with time := s.time + 1 }
    | p :: rest =>
      if env.cancelAt ≤ s.time then
        { s with
            queue := rest,
            chan := s.chan ++
              [ProgressMessage.fileFailed p
                { filename := p, operation := "cancelled",
                  message := "Cancelled before start" }],
            time := s.time + 1 }
      else
        { s with
            queue := rest,
            bytes := s.bytes + (analyze_file env.fs p).stats.size_bytes,
            chan := s.chan ++
              [ProgressMessage.fileCompleted (analyze_file env.fs p)],
            time := s.time + 1 }

/-- Run the `process_dirs` machine under an explicit interleaving. -/
def runProc (env : ProcEnv) (s : ProcState) (sched : List PLabel) : ProcState :=
  sched.foldl (procStep env) s

/-- The `(completed, total)` payloads of the `OverallProgress` messages of a
channel log, in send order. -/
def overallList (l : List ProgressMessage) : List (Nat × Nat) :=
  l.filterMap fun m =>
    match m with
    | .overallProgress c t => some (c, t)
    | _ => none

/-- The paths of the `FileStarted` messages of a channel log, in send order. -/
def startedList (l : List ProgressMessage) : List String :=
  l.filterMap fun m =>
    match m with
    | .fileStarted p => some p
    | _ => none

/-- Whether a message is the per-job completion/failure report for path `p`
(the message the job's closure sends for the file it captured). -/
def isJobMsgFor (p : String) : ProgressMessage → Bool
  | .fileCompleted a => a.filename = p
  | .fileFailed q _ => q = p
  | _ => false

/-- Everything of a `ProcState` except the persisted file: what the caller
and the channel consumer can observe. -/
structure ProcObs where
  rem : List String
  dispDone : Bool
  completed : Nat
  queue : List String
  chan : List ProgressMessage
  bytes : Nat
  persistCount : Nat
  time : Nat
deriving DecidableEq, Repr

/-- Projection to the persistence-independent observables. -/
def observables (s : ProcState) : ProcObs :=
  { rem := s.rem, dispDone := s.dispDone, completed := s.completed,
    queue := s.queue, chan := s.chan, bytes := s.bytes,
    persistCount := s.persistCount, time := s.time }

/-- Step function `procStep` replayed on the observables alone: identical to `procStep`
except that no persisted file is tracked.  Used to show the run is
independent of persistence failures. -/
def stepObs (paths : List String) (fs : String → FileDesc) (cancelAt : Nat)
    (o : ProcObs) : PLabel → ProcObs
  | .disp =>
    if o.dispDone then { o with time := o.time + 1 }
    else
      match o.rem with
      | [] => { o with dispDone := true, time := o.time + 1 }
      | p :: ps =>
        if cancelAt ≤ o.time then
          { o with dispDone := true, time := o.time + 1 }
        else
          { o with
              rem := ps,
              chan := o.chan ++
                [ProgressMessage.fileStarted p,
                 ProgressMessage.overallProgress (o.completed + 1)
                   paths.length],
              queue := o.queue ++ [p],
              completed := o.completed + 1,
              persistCount := o.persistCount + 1,
              time := o.time + 1 }
  | .work _ =>
    match o.queue with
    | [] => { o with time := o.time + 1 }
    | p :: rest =>
      if cancelAt ≤ o.time then
        { o with
            queue := rest,
            chan := o.chan ++
              [ProgressMessage.fileFailed p
                { filename := p, operation := "cancelled",
                  message := "Cancelled before start" }],
            time := o.time + 1 }
      else
        { o with
            queue := rest,
            bytes := o.bytes + (analyze_file fs p).stats.size_bytes,
            chan := o.chan ++
              [ProgressMessage.fileCompleted (analyze_file fs p)],
            time := o.time + 1 }

/-- Run function `runProc` on observables. -/
def runObs (paths : List String) (fs : String → FileDesc) (cancelAt : Nat)
    (o : ProcObs) (sched : List PLabel) : ProcObs :=
  sched.foldl (stepObs paths fs cancelAt) o

/-! ## Concrete sample inputs used by the closed witnesses -/

/-- Sample abstract file system: three files of sizes 100, 250 and 4096
bytes (the spec's worked example), each of which opens cleanly and has no
content lines. -/
def sampleFs : String → FileDesc := fun p =>
  { metadata :=
      Except.ok (if p = "a.txt" then 100 else if p = "b.txt" then 250 else 4096),
    openResult := Except.ok (), lines := [], readLineErr := none,
    reopenOk := true, chunks := [], readRawErr := none }

/-- Three-file environment, never cancelled within 100 steps, persistence
always succeeding. -/
def sampleEnv : ProcEnv :=
  { paths := ["a.txt", "b.txt", "c.txt"], fs := sampleFs, cancelAt := 100,
    persistOk := fun _ => true }

/-- Dispatch all three files, then let workers drain all three jobs. -/
def sampleSched : List PLabel :=
  [PLabel.disp, PLabel.disp, PLabel.disp, PLabel.work 0, PLabel.work 1,
   PLabel.work 0]

/-- Environment cancelled from step 1 on: the dispatcher submits one file
and then observes the flag. -/
def cancelEnv : ProcEnv :=
  { paths := ["a.txt", "b.txt"], fs := sampleFs, cancelAt := 1,
    persistOk := fun _ => true }

/-- A file system on which metadata succeeds (100 bytes) but `File::open`
fails — e.g. a file readable in its directory listing but with no read
permission. -/
def fsOpenDenied : String → FileDesc := fun _ =>
  { metadata := Except.ok 100, openResult := Except.error ("denied"),
    lines := [], readLineErr := none, reopenOk := false, chunks := [],
    readRawErr := none }

/-- State after the dispatcher's first iteration on `sampleEnv`:
`a.txt` started and queued, progress `(1, 3)` sent and persisted. -/
def dispatched1 : ProcState := procStep sampleEnv (procInit sampleEnv) PLabel.disp

/-- State after the dispatcher's first iteration on `cancelEnv`: `a.txt`
started and queued; from now on (time 1) every flag read is `true`. -/
def cancelState : ProcState := procStep cancelEnv (procInit cancelEnv) PLabel.disp

/-- The inductive invariant of one `process_dirs` call: the dispatcher has
handled exactly the first `completed` paths (`hsplit`, `hcount`); the
`OverallProgress` payloads sent so far are exactly `(1, total) …
(completed, total)` (`hover`); the `FileStarted` messages are exactly the
dispatched prefix in order (`hstart`); the job queue is a contiguous window
of the dispatched prefix, and — as long as cancellation has not yet been
observable — the byte counter is the sum of the analyzed sizes of the
dequeued prefix (`hqueue`); every queued path already has its `FileStarted`
on the channel (`hmem`); and every per-job report on the channel is
preceded by the `FileStarted` of its path (`horder`). -/
structure ProcInv (env : ProcEnv) (s : ProcState) : Prop where
  hsplit : env.paths = env.paths.take s.completed ++ s.rem
  hcount : s.completed + s.rem.length = env.paths.length
  hover : overallList s.chan =
    (List.range s.completed).map (fun i => (i + 1, env.paths.length))
  hstart : startedList s.chan = env.paths.take s.completed
  hqueue : ∃ d, d ≤ s.completed ∧
    s.queue = (env.paths.take s.completed).drop d ∧
    (s.time ≤ env.cancelAt →
      s.bytes = ((env.paths.take d).map
        (fun p => (analyze_file env.fs p).stats.size_bytes)).sum)
  hmem : ∀ p ∈ s.queue, ProgressMessage.fileStarted p ∈ s.chan
  horder : ∀ k m, s.chan.get? k = some m → ∀ p, isJobMsgFor p m = true →
    ∃ i, i < k ∧ s.chan.get? i = some (ProgressMessage.fileStarted p)

/-! ## thread_pool.rs : lemmas -/

theorem jobToks_append (l l2 : List PoolMsg) :
    jobToks (l ++ l2) = jobToks l ++ jobToks l2 := by
  simp [jobToks]

theorem jobToks_replicate_stop (n : Nat) :
    jobToks (List.replicate n PoolMsg.stop) = [] := by
  induction n with
  | zero => rfl
  | succ m ih => simp [List.replicate_succ, jobToks]

/-- One worker step preserves the stream of jobs: tokens already executed
followed by tokens still queued. -/
theorem workerStep_toks (s : PoolState) (w : Nat) :
    (workerStep s w).log.map Prod.snd ++ jobToks (workerStep s w).pending =
      s.log.map Prod.snd ++ jobToks s.pending := by
  unfold workerStep
  split
  · split
    · simp_all [jobToks]
    · simp_all [jobToks]
    · split <;> simp_all [jobToks]
  · rfl

theorem runPool_cons (s : PoolState) (w : Nat) (sched : List Nat) :
    runPool s (w :: sched) = runPool (workerStep s w) sched := rfl

/-- Lemma `workerStep_toks` lifted to a whole schedule. -/
theorem runPool_toks (sched : List Nat) (s : PoolState) :
    (runPool s sched).log.map Prod.snd ++ jobToks (runPool s sched).pending =
      s.log.map Prod.snd ++ jobToks s.pending := by
  induction sched generalizing s with
  | nil => rfl
  | cons w rest ih =>
    calc (runPool (workerStep s w) rest).log.map Prod.snd ++
          jobToks (runPool (workerStep s w) rest).pending
        = (workerStep s w).log.map Prod.snd ++ jobToks (workerStep s w).pending :=
          ih (workerStep s w)
      _ = s.log.map Prod.snd ++ jobToks s.pending := workerStep_toks s w

/-- Invariant shape of a pool that has only had jobs submitted: all messages
are jobs, sender open, workers untouched. -/
theorem submitAll_spec (toks : List Nat) (n : Nat) :
    submitAll (initPool n) toks =
      { pending := toks.map PoolMsg.newJob, senderOpen := true,
        alive := List.replicate n true, handles := List.replicate n true,
        log := [] } := by
  suffices h : ∀ pend, toks.foldl execute
      { pending := pend, senderOpen := true, alive := List.replicate n true,
        handles := List.replicate n true, log := [] } =
      { pending := pend ++ toks.map PoolMsg.newJob, senderOpen := true,
        alive := List.replicate n true, handles := List.replicate n true,
        log := [] } by
    simpa [submitAll, initPool] using h []
  intro pend
  induction toks generalizing pend with
  | nil => simp
  | cons t rest ih => simp [execute, ih]

/-- In a state whose queue holds only jobs, whose sender is open and whose
workers are all alive, every scheduled step with a valid worker id dequeues
exactly one message (or is a no-op on an empty queue), so a schedule at
least as long as the queue drains it completely. -/
theorem runPool_drains (sched : List Nat) (toks : List Nat) (n : Nat)
    (log : List (Nat × Nat))
    (hvalid : ∀ w ∈ sched, w < n) (hlen : toks.length ≤ sched.length) :
    (runPool { pending := toks.map PoolMsg.newJob, senderOpen := true,
               alive := List.replicate n true, handles := List.replicate n true,
               log := log } sched).pending = [] := by
  induction sched generalizing toks log with
  | nil =>
    simp only [List.length_nil, Nat.le_zero, List.length_eq_zero] at hlen
    simp [runPool, hlen]
  | cons w rest ih =>
    have hw : w < n := hvalid w (List.mem_cons_self w rest)
    have hrest : ∀ v ∈ rest, v < n := fun v hv => hvalid v (List.mem_cons_of_mem w hv)
    match toks with
    | [] =>
      have hstep :
          workerStep
            { pending := ([] : List Nat).map PoolMsg.newJob, senderOpen := true,
              alive := List.replicate n true, handles := List.replicate n true,
              log := log } w =
          { pending := ([] : List Nat).map PoolMsg.newJob, senderOpen := true,
            alive := List.replicate n true, handles := List.replicate n true,
            log := log } := by
        unfold workerStep
        simp [List.getElem?_replicate, hw]
      rw [runPool_cons, hstep]
      exact ih [] log hrest (by simp)
    | t :: ts =>
      have hstep :
          workerStep
            { pending := (t :: ts).map PoolMsg.newJob, senderOpen := true,
              alive := List.replicate n true, handles := List.replicate n true,
              log := log } w =
          { pending := ts.map PoolMsg.newJob, senderOpen := true,
            alive := List.replicate n true, handles := List.replicate n true,
            log := log ++ [(w, t)] } := by
        unfold workerStep
        simp [List.getElem?_replicate, hw]
      have hlen2 : ts.length ≤ rest.length := by simpa using hlen
      rw [runPool_cons, hstep]
      exact ih ts (log ++ [(w, t)]) hrest hlen2

theorem jobToks_map_newJob (toks : List Nat) :
    jobToks (toks.map PoolMsg.newJob) = toks := by
  induction toks with
  | nil => rfl
  | cons t rest ih => simp [jobToks] at ih ⊢; exact ih

theorem replicate_any_id (n : Nat) (hn : 1 ≤ n) :
    (List.replicate n true).any id = true := by
  match n, hn with
  | m + 1, _ => simp [List.replicate_succ]

/-- A shutdown pool has its sender gone. -/
theorem shutdown_senderOpen (s : PoolState) : (shutdown s).senderOpen = false := by
  unfold shutdown
  by_cases hs : s.senderOpen <;> by_cases ha : s.alive.any id <;> simp_all

/-- After a shutdown no worker loop is still running. -/
theorem shutdown_alive_any (s : PoolState) : (shutdown s).alive.any id = false := by
  unfold shutdown
  by_cases hs : s.senderOpen <;> by_cases ha : s.alive.any id <;>
    simp_all [List.any_map, Function.comp]

/-- After a shutdown every join handle has been taken. -/
theorem shutdown_handles (s : PoolState) :
    (shutdown s).handles = s.handles.map (fun _ => false) := by
  unfold shutdown
  by_cases hs : s.senderOpen <;> by_cases ha : s.alive.any id <;> simp_all

/-- A pool that has only been shut down is a fixed point of `shutdown`. -/
theorem shutdown_fixed (p : PoolState) (h1 : p.senderOpen = false)
    (h2 : p.alive.any id = false)
    (h4 : p.handles.map (fun _ => false) = p.handles) : shutdown p = p := by
  obtain ⟨pend, so, al, hd, lg⟩ := p
  simp only at h1 h2 h4
  subst h1
  unfold shutdown
  simp [h2, h4]

/-! ## Claim theorems about thread_pool.rs -/

/-- Claim C1: for every pool size `n ≥ 1` and every list of `k` token-sending
jobs submitted via `execute` before any shutdown, under every worker
schedule that is long enough to let the pool run (valid worker ids, at
least `k` steps) the queue drains and the multiset of executed tokens is
exactly the submitted list: `k` jobs yield exactly `k` tokens, in
submission order, each executed exactly once (its unique `log` entry names
the one worker that ran it) — regardless of `n`.  The last conjunct covers
the run completed by `shutdown` itself: the tokens executed by the time
`shutdown` returns are again exactly the submitted ones. -/
theorem thread_pool_executes_each_job_exactly_once
    (n : Nat) (toks sched : List Nat)
    (hn : 1 ≤ n) (hvalid : ∀ w ∈ sched, w < n) (hlen : toks.length ≤ sched.length) :
    (runPool (submitAll (initPool n) toks) sched).pending = [] ∧
    (runPool (submitAll (initPool n) toks) sched).log.map Prod.snd = toks ∧
    (toks.Nodup → ∀ t ∈ toks,
      ((runPool (submitAll (initPool n) toks) sched).log.map Prod.snd).count t = 1) ∧
    (shutdown (submitAll (initPool n) toks)).log.map Prod.snd = toks := by
  have hsub := submitAll_spec toks n
  have hdrain : (runPool (submitAll (initPool n) toks) sched).pending = [] := by
    rw [hsub]; exact runPool_drains sched toks n [] hvalid hlen
  have hrhs : (submitAll (initPool n) toks).log.map Prod.snd ++
      jobToks (submitAll (initPool n) toks).pending = toks := by
    rw [hsub]; simp [jobToks_map_newJob]
  have htoks := (runPool_toks sched (submitAll (initPool n) toks)).trans hrhs
  rw [hdrain] at htoks
  simp only [jobToks, List.filterMap_nil, List.append_nil] at htoks
  refine ⟨hdrain, htoks, ?_, ?_⟩
  · intro hnd t ht
    rw [htoks]
    exact List.count_eq_one_of_mem hnd ht
  · rw [hsub]
    unfold shutdown
    simp [replicate_any_id n hn, jobToks_append, jobToks_replicate_stop,
      jobToks_map_newJob]

/-- Witness for C1: pool of 2 workers, three distinct tokens, an alternating
schedule: all three tokens are received, each exactly once. -/
theorem thread_pool_executes_each_job_exactly_once_witness :
    (runPool (submitAll (initPool 2) [10, 20, 30]) [0, 1, 0, 1]).log.map Prod.snd =
      [10, 20, 30] :=
  (thread_pool_executes_each_job_exactly_once 2 [10, 20, 30] [0, 1, 0, 1]
    (by decide) (by decide) (by decide)).2.1

/-- Claim C7 counterexample: the claim says a job enqueued but not yet executed
when `shutdown` begins draining is *never executed*.  On the code it is: with
one worker and token-job `5` still queued, `shutdown` queues its `Shutdown`
sentinel *behind* the job on the same FIFO channel, so the worker executes
the job before exiting — token `5` appears in the execution log. -/
theorem shutdown_drops_queued_jobs_counterexample :
    5 ∈ (shutdown (execute (initPool 1) 5)).log.map Prod.snd := by decide

/-- Claim C7 amended: `shutdown` never drops a job that was already enqueued:
as long as any worker loop is live, by the time `shutdown` returns every
queued job has been executed (in queue order) and the queue is empty.  What
*is* dropped, silently, is any job passed to `execute` after shutdown has
taken the sender. -/
theorem shutdown_drains_queued_jobs_and_drops_late_submissions
    (s : PoolState) (t : Nat) :
    ((shutdown s).senderOpen = false) ∧
    (s.alive.any id = true →
      jobToks (shutdown s).pending = [] ∧
      (shutdown s).log.map Prod.snd = s.log.map Prod.snd ++ jobToks s.pending) ∧
    (s.senderOpen = false → execute s t = s) := by
  refine ⟨shutdown_senderOpen s, ?_, ?_⟩
  · intro ha
    unfold shutdown
    by_cases hs : s.senderOpen <;>
      simp [hs, ha, jobToks, jobToks_append, jobToks_replicate_stop]
  · intro hs
    unfold execute
    simp [hs]

/-- Witness for the amended C7: a queued token-job `7` is executed by
`shutdown`, and a late `execute` on the shut-down pool is a no-op. -/
theorem shutdown_drains_queued_jobs_witness :
    ((shutdown (execute (initPool 1) 7)).log.map Prod.snd =
      (execute (initPool 1) 7).log.map Prod.snd ++
        jobToks (execute (initPool 1) 7).pending) ∧
    execute (shutdown (execute (initPool 1) 7)) 9 = shutdown (execute (initPool 1) 7) :=
  ⟨((shutdown_drains_queued_jobs_and_drops_late_submissions
      (execute (initPool 1) 7) 9).2.1 (by decide)).2,
   (shutdown_drains_queued_jobs_and_drops_late_submissions
      (shutdown (execute (initPool 1) 7)) 9).2.2 (by decide)⟩

/-- Claim C8: `ThreadPool::shutdown` is idempotent: a second call finds the
sender already taken (so sends nothing) and every join handle already taken
(so joins nothing) and leaves the state exactly as the first call left it.
The model's `shutdown` is a total function — the second call trivially
terminates and has no panicking path. -/
theorem thread_pool_shutdown_idempotent (s : PoolState) :
    shutdown (shutdown s) = shutdown s :=
  shutdown_fixed (shutdown s) (shutdown_senderOpen s) (shutdown_alive_any s)
    (by rw [shutdown_handles]; simp [List.map_map])

/-- Claim C10: `ThreadPool::increase(n)` hits `unimplemented!` (modelled as
`none`) whenever `n ≥ 1` and the pool still has its sender, and returns
without effect when `n = 0` or when the pool has been shut down. -/
theorem thread_pool_increase_panics (s : PoolState) (n : Nat) :
    (1 ≤ n → s.senderOpen = true → increase s n = none) ∧
    (increase s 0 = some s) ∧
    (s.senderOpen = false → increase s n = some s) := by
  refine ⟨?_, ?_, ?_⟩
  · intro hn hs
    unfold increase
    have : ¬ n = 0 := Nat.pos_iff_ne_zero.mp hn
    simp [this, hs]
  · rfl
  · intro hs
    unfold increase
    by_cases h0 : n = 0 <;> simp [h0, hs]

/-- Witness for C10: a live pool of one worker panics on `increase 2`,
returns unchanged on `increase 0`, and a shut-down pool ignores `increase`. -/
theorem thread_pool_increase_panics_witness :
    increase (initPool 1) 2 = none ∧
    increase (initPool 1) 0 = some (initPool 1) ∧
    increase (shutdown (initPool 1)) 2 = some (shutdown (initPool 1)) :=
  ⟨(thread_pool_increase_panics (initPool 1) 2).1 (by decide) (by decide),
   (thread_pool_increase_panics (initPool 1) 0).2.1,
   (thread_pool_increase_panics (shutdown (initPool 1)) 2).2.2 (by decide)⟩

/-! ## processor.rs : lemmas -/

theorem overallList_append (l1 l2 : List ProgressMessage) :
    overallList (l1 ++ l2) = overallList l1 ++ overallList l2 := by
  simp [overallList]

theorem startedList_append (l1 l2 : List ProgressMessage) :
    startedList (l1 ++ l2) = startedList l1 ++ startedList l2 := by
  simp [startedList]

/-- Both branches of `analyze_file` report the analyzed path itself. -/
theorem analyze_file_filename (fs : String → FileDesc) (path : String) :
    (analyze_file fs path).filename = path := by
  cases h : (fs path).openResult <;> simp [analyze_file, h]

/-- Every transition of the `process_dirs` machine advances time by one. -/
theorem procStep_time (env : ProcEnv) (s : ProcState) (l : PLabel) :
    (procStep env s l).time = s.time + 1 := by
  cases l <;> simp only [procStep] <;> (repeat' split) <;> rfl

theorem runProc_time (env : ProcEnv) (sched : List PLabel) (s : ProcState) :
    (runProc env s sched).time = s.time + sched.length := by
  induction sched generalizing s with
  | nil => rfl
  | cons l rest ih =>
    calc (runProc env (procStep env s l) rest).time
        = (procStep env s l).time + rest.length := ih (procStep env s l)
      _ = s.time + 1 + rest.length := by rw [procStep_time]
      _ = s.time + (l :: rest).length := by simp; omega

/-- Taking one more element when the tail from position `d` is known. -/
theorem take_succ_of_drop_cons {α : Type} (l : List α) (d : Nat) (p : α)
    (rest : List α) (h : l.drop d = p :: rest) :
    l.take (d + 1) = l.take d ++ [p] ∧ l.drop (d + 1) = rest := by
  induction l generalizing d with
  | nil => simp at h
  | cons a as ih =>
    cases d with
    | zero =>
      simp only [List.drop_zero] at h
      cases h
      simp
    | succ d =>
      have h2 : as.drop d = p :: rest := by simpa using h
      obtain ⟨h3, h4⟩ := ih d h2
      refine ⟨?_, by simpa using h4⟩
      simp [List.take_succ_cons, h3]

/-- Appending messages to the channel preserves the started-before-reported
order, provided every appended job report already has its `FileStarted` in
the channel. -/
theorem chan_extend_order (chan newMsgs : List ProgressMessage)
    (hold : ∀ k m, chan.get? k = some m → ∀ p, isJobMsgFor p m = true →
      ∃ i, i < k ∧ chan.get? i = some (ProgressMessage.fileStarted p))
    (hnew : ∀ m ∈ newMsgs, ∀ p, isJobMsgFor p m = true →
      ProgressMessage.fileStarted p ∈ chan) :
    ∀ k m, (chan ++ newMsgs).get? k = some m → ∀ p, isJobMsgFor p m = true →
      ∃ i, i < k ∧ (chan ++ newMsgs).get? i =
        some (ProgressMessage.fileStarted p) := by
  intro k m hk p hp
  by_cases hlt : k < chan.length
  · rw [List.get?_append hlt] at hk
    obtain ⟨i, hik, hi⟩ := hold k m hk p hp
    exact ⟨i, hik, by rw [List.get?_append (lt_trans hik hlt)]; exact hi⟩
  · push_neg at hlt
    rw [List.get?_append_right hlt] at hk
    have hmem : m ∈ newMsgs := List.get?_mem hk
    have hin := hnew m hmem p hp
    obtain ⟨i, hi⟩ := List.mem_iff_get?.mp hin
    have hilen : i < chan.length := by
      by_contra hc
      push_neg at hc
      rw [List.get?_eq_none.mpr hc] at hi
      exact Option.noConfusion hi
    exact ⟨i, lt_of_lt_of_le hilen hlt,
      by rw [List.get?_append hilen]; exact hi⟩

theorem procInv_init (env : ProcEnv) : ProcInv env (procInit env) := by
  refine ⟨?_, ?_, ?_, ?_, ⟨0, ?_, ?_, ?_⟩, ?_, ?_⟩ <;>
    simp [procInit, overallList, startedList]

theorem procInv_step (env : ProcEnv) (s : ProcState) (l : PLabel)
    (h : ProcInv env s) : ProcInv env (procStep env s l) := by
  obtain ⟨h1, h2, h3, h4, ⟨d, hd, hq, hb⟩, h6, h7⟩ := h
  have hcle : s.completed ≤ env.paths.length := by omega
  set A := env.paths.take s.completed with hA
  have htk : A.length = s.completed := List.length_take_of_le hcle
  cases l with
  | disp =>
    by_cases hdone : s.dispDone = true
    · have hstep : procStep env s PLabel.disp = { s with time := s.time + 1 } := by
        simp [procStep, hdone]
      rw [hstep]
      exact ⟨h1, h2, h3, h4, ⟨d, hd, hq, fun hc => hb (by simp at hc; omega)⟩, h6, h7⟩
    · have hdone2 : s.dispDone = false := by
        cases hx : s.dispDone
        · rfl
        · exact absurd hx hdone
      cases hrem : s.rem with
      | nil =>
        have hstep : procStep env s PLabel.disp =
            { s with dispDone := true, time := s.time + 1 } := by
          simp [procStep, hdone2, hrem]
        rw [hstep]
        exact ⟨h1, h2, h3, h4, ⟨d, hd, hq, fun hc => hb (by simp at hc; omega)⟩, h6, h7⟩
      | cons p ps =>
        by_cases hcan : env.cancelAt ≤ s.time
        · have hstep : procStep env s PLabel.disp =
              { s with dispDone := true, time := s.time + 1 } := by
            simp [procStep, hdone2, hrem, hcan]
          rw [hstep]
          exact ⟨h1, h2, h3, h4, ⟨d, hd, hq, fun hc => hb (by simp at hc; omega)⟩, h6, h7⟩
        · have hstep : procStep env s PLabel.disp =
              { s with
                  rem := ps,
                  chan := s.chan ++
                    [ProgressMessage.fileStarted p,
                     ProgressMessage.overallProgress (s.completed + 1)
                       env.paths.length],
                  queue := s.queue ++ [p],
                  completed := s.completed + 1,
                  persistFile :=
                    if env.persistOk s.persistCount then
                      some (persist_progress (s.completed + 1) env.paths.length)
                    else s.persistFile,
                  persistCount := s.persistCount + 1,
                  time := s.time + 1 } := by
            simp [procStep, hdone2, hrem, hcan]
          have hdropc : env.paths.drop s.completed = p :: ps := by
            conv_lhs => rw [h1, hrem]
            rw [← htk]
            exact List.drop_left A (p :: ps)
          obtain ⟨htake1, _⟩ :=
            take_succ_of_drop_cons env.paths s.completed p ps hdropc
          rw [hstep]
          refine ⟨?_, ?_, ?_, ?_, ⟨d, ?_, ?_, ?_⟩, ?_, ?_⟩
          · show env.paths = env.paths.take (s.completed + 1) ++ ps
            rw [htake1, ← hA, List.append_assoc]
            rw [h1, hrem]
            rfl
          · show s.completed + 1 + ps.length = env.paths.length
            rw [hrem] at h2
            simp at h2
            omega
          · show overallList _ = _
            rw [overallList_append, h3]
            simp [overallList, List.range_succ]
          · show startedList _ = _
            rw [startedList_append, h4, htake1, ← hA]
            simp [startedList]
          · show d ≤ s.completed + 1
            omega
          · show s.queue ++ [p] = (env.paths.take (s.completed + 1)).drop d
            rw [htake1, ← hA,
              List.drop_append_of_le_length (by rw [htk]; exact hd), hq, hA]
          · intro hc
            simp at hc
            exact hb (by omega)
          · intro q hmem2
            rcases List.mem_append.mp hmem2 with hold | hnew
            · exact List.mem_append_left _ (h6 q hold)
            · have : q = p := by simpa using hnew
              subst this
              exact List.mem_append_right _ (by simp)
          · refine chan_extend_order s.chan _ h7 ?_
            intro m hm q hq2
            simp only [List.mem_cons, List.not_mem_nil, or_false] at hm
            rcases hm with rfl | rfl <;> simp [isJobMsgFor] at hq2
  | work w =>
    cases hq0 : s.queue with
    | nil =>
      have hstep : procStep env s (PLabel.work w) = { s with time := s.time + 1 } := by
        simp [procStep, hq0]
      rw [hstep]
      exact ⟨h1, h2, h3, h4, ⟨d, hd, hq, fun hc => hb (by simp at hc; omega)⟩, h6, h7⟩
    | cons p rest =>
      have hAd : A.drop d = p :: rest := by rw [← hq, hq0]
      have hdlt : d < s.completed := by
        have hlen := congrArg List.length hAd
        simp [htk] at hlen
        omega
      obtain ⟨ht1, ht2⟩ := take_succ_of_drop_cons A d p rest hAd
      have hAtd : A.take d = env.paths.take d := by
        rw [hA, List.take_take, min_eq_left hd]
      have hAtd1 : A.take (d + 1) = env.paths.take (d + 1) := by
        rw [hA, List.take_take, min_eq_left (by omega)]
      have heq1 : env.paths.take (d + 1) = env.paths.take d ++ [p] := by
        rw [← hAtd1, ht1, hAtd]
      have hmemp : p ∈ s.queue := by rw [hq0]; exact List.mem_cons_self p rest
      by_cases hcan : env.cancelAt ≤ s.time
      · have hstep : procStep env s (PLabel.work w) =
            { s with
                queue := rest,
                chan := s.chan ++
                  [ProgressMessage.fileFailed p
                    { filename := p, operation := "cancelled",
                      message := "Cancelled before start" }],
                time := s.time + 1 } := by
          simp [procStep, hq0, hcan]
        rw [hstep]
        refine ⟨h1, h2, ?_, ?_, ⟨d + 1, by show d + 1 ≤ s.completed; omega, ?_, ?_⟩,
          ?_, ?_⟩
        · rw [overallList_append, h3]; simp [overallList]
        · rw [startedList_append, h4]; simp [startedList]
        · show rest = A.drop (d + 1)
          rw [ht2]
        · intro hc
          simp at hc
          exact absurd hcan (by omega)
        · intro q hq2
          refine List.mem_append_left _ (h6 q ?_)
          rw [hq0]
          exact List.mem_cons_of_mem p hq2
        · refine chan_extend_order s.chan _ h7 ?_
          intro m hm q hq2
          simp only [List.mem_cons, List.not_mem_nil, or_false] at hm
          subst hm
          simp [isJobMsgFor] at hq2
          subst hq2
          exact h6 _ hmemp
      · have hstep : procStep env s (PLabel.work w) =
            { s with
                queue := rest,
                bytes := s.bytes + (analyze_file env.fs p).stats.size_bytes,
                chan := s.chan ++
                  [ProgressMessage.fileCompleted (analyze_file env.fs p)],
                time := s.time + 1 } := by
          simp [procStep, hq0, hcan]
        rw [hstep]
        refine ⟨h1, h2, ?_, ?_, ⟨d + 1, by show d + 1 ≤ s.completed; omega, ?_, ?_⟩,
          ?_, ?_⟩
        · rw [overallList_append, h3]; simp [overallList]
        · rw [startedList_append, h4]; simp [startedList]
        · show rest = A.drop (d + 1)
          rw [ht2]
        · intro hc
          simp at hc
          show s.bytes + (analyze_file env.fs p).stats.size_bytes = _
          rw [hb (by omega), heq1]
          simp
        · intro q hq2
          refine List.mem_append_left _ (h6 q ?_)
          rw [hq0]
          exact List.mem_cons_of_mem p hq2
        · refine chan_extend_order s.chan _ h7 ?_
          intro m hm q hq2
          simp only [List.mem_cons, List.not_mem_nil, or_false] at hm
          subst hm
          simp [isJobMsgFor, analyze_file_filename] at hq2
          subst hq2
          exact h6 _ hmemp

theorem procInv_run (env : ProcEnv) (sched : List PLabel) (s : ProcState)
    (h : ProcInv env s) : ProcInv env (runProc env s sched) := by
  induction sched generalizing s with
  | nil => exact h
  | cons l rest ih => exact ih (procStep env s l) (procInv_step env s l h)

/-- One step after the dispatcher has left its loop: the remaining paths
stay untouched, no `FileStarted` is sent, and the queue only shrinks. -/
theorem procStep_after_done (env : ProcEnv) (s : ProcState) (l : PLabel)
    (h : s.dispDone = true) :
    (procStep env s l).dispDone = true ∧ (procStep env s l).rem = s.rem ∧
    startedList (procStep env s l).chan = startedList s.chan ∧
    ∃ m1, (procStep env s l).queue = s.queue.drop m1 := by
  cases l with
  | disp =>
    have hs : procStep env s PLabel.disp = { s with time := s.time + 1 } := by
      simp [procStep, h]
    rw [hs]
    exact ⟨h, rfl, rfl, ⟨0, rfl⟩⟩
  | work w =>
    cases hq0 : s.queue with
    | nil =>
      have hs : procStep env s (PLabel.work w) = { s with time := s.time + 1 } := by
        simp [procStep, hq0]
      rw [hs]
      exact ⟨h, rfl, rfl, ⟨0, by simp [hq0]⟩⟩
    | cons p r2 =>
      by_cases hcan : env.cancelAt ≤ s.time
      · refine ⟨?_, ?_, ?_, ⟨1, ?_⟩⟩ <;>
          simp [procStep, hq0, hcan, startedList_append, startedList, h]
      · refine ⟨?_, ?_, ?_, ⟨1, ?_⟩⟩ <;>
          simp [procStep, hq0, hcan, startedList_append, startedList, h]

/-- Lemma `procStep_after_done` lifted to any remaining schedule. -/
theorem runProc_dispDone (env : ProcEnv) (sched : List PLabel) (s : ProcState)
    (h : s.dispDone = true) :
    (runProc env s sched).dispDone = true ∧
    (runProc env s sched).rem = s.rem ∧
    startedList (runProc env s sched).chan = startedList s.chan ∧
    ∃ m, (runProc env s sched).queue = s.queue.drop m := by
  induction sched generalizing s with
  | nil => exact ⟨h, rfl, rfl, ⟨0, rfl⟩⟩
  | cons l rest ih =>
    obtain ⟨a1, a2, a3, m1, a4⟩ := procStep_after_done env s l h
    obtain ⟨b1, b2, b3, m2, b4⟩ := ih (procStep env s l) a1
    refine ⟨b1, b2.trans a2, b3.trans a3, ⟨m1 + m2, ?_⟩⟩
    show (runProc env (procStep env s l) rest).queue = s.queue.drop (m1 + m2)
    rw [b4, a4, List.drop_drop]

/-- The persistence-independent observables evolve by `stepObs`: no
transition reads `persistFile` or `persistOk` except to write the file. -/
theorem observables_step (env : ProcEnv) (s : ProcState) (l : PLabel) :
    observables (procStep env s l) =
      stepObs env.paths env.fs env.cancelAt (observables s) l := by
  cases l <;> simp only [procStep, stepObs, observables] <;>
    (repeat' split) <;> rfl

/-- Lemma `observables_step` lifted to a whole schedule. -/
theorem observables_run (env : ProcEnv) (sched : List PLabel) (s : ProcState) :
    observables (runProc env s sched) =
      runObs env.paths env.fs env.cancelAt (observables s) sched := by
  induction sched generalizing s with
  | nil => rfl
  | cons l rest ih =>
    show observables (runProc env (procStep env s l) rest) = _
    rw [ih, observables_step]
    rfl

/-! ## Claim theorems about processor.rs -/

/-- Claim C2: within a single `process_dirs` call, under every interleaving of
the dispatcher and the workers, the `completed` values of the successive
`OverallProgress` messages are non-decreasing, every such message satisfies
`completed ≤ total`, and every such message carries the one `total` computed
up front — the number of discovered files. -/
theorem overall_progress_monotone_bounded (env : ProcEnv) (sched : List PLabel) :
    List.Chain' (fun a b => a.1 ≤ b.1)
      (overallList (runProc env (procInit env) sched).chan) ∧
    (∀ x ∈ overallList (runProc env (procInit env) sched).chan,
      x.1 ≤ x.2 ∧ x.2 = env.paths.length) := by
  have inv := procInv_run env sched (procInit env) (procInv_init env)
  have hover := inv.hover
  have hcount := inv.hcount
  rw [hover]
  constructor
  · rw [List.chain'_map]
    exact ((List.pairwise_lt_range _).chain').imp (fun hab => by omega)
  · intro x hx
    simp only [List.mem_map, List.mem_range] at hx
    obtain ⟨i, hi, rfl⟩ := hx
    exact ⟨by omega, rfl⟩

/-- Claim C3: the byte counter starts at 0, every transition can only leave it
or increase it, and when a never-cancelled run finishes (no path left to
dispatch, no job left queued) the counter is exactly the sum of the
`size_bytes` reported by `analyze_file` for the discovered files — for any
interleaving, hence for any worker count. -/
theorem byte_counter_starts_zero_monotone_sums
    (env : ProcEnv) (sched : List PLabel)
    (hnc : sched.length ≤ env.cancelAt)
    (hrem : (runProc env (procInit env) sched).rem = [])
    (hqueue : (runProc env (procInit env) sched).queue = []) :
    (procInit env).bytes = 0 ∧
    (∀ s l, s.bytes ≤ (procStep env s l).bytes) ∧
    (runProc env (procInit env) sched).bytes =
      (env.paths.map (fun p => (analyze_file env.fs p).stats.size_bytes)).sum := by
  refine ⟨rfl, ?_, ?_⟩
  · intro s l
    cases l <;> simp only [procStep] <;> (repeat' split) <;> simp
  · have inv := procInv_run env sched (procInit env) (procInv_init env)
    obtain ⟨d, hd, hq, hb⟩ := inv.hqueue
    have hcount := inv.hcount
    have htime : (runProc env (procInit env) sched).time = sched.length := by
      rw [runProc_time]
      simp [procInit]
    have hc : (runProc env (procInit env) sched).completed = env.paths.length := by
      rw [hrem] at hcount
      simpa using hcount
    rw [hq, hc] at hqueue
    have hlen : env.paths.length ≤ d := by
      have := List.drop_eq_nil_iff.mp hqueue
      simpa [List.take_length] using this
    have hdeq : d = env.paths.length := by omega
    have hbb := hb (by omega)
    rw [hbb, hdeq, List.take_length]

/-- Witness for C3: three files of sizes 100, 250 and 4096 bytes, dispatched
then fully drained by two workers, yield a final byte counter of 4446. -/
theorem byte_counter_witness :
    (runProc sampleEnv (procInit sampleEnv) sampleSched).bytes = 4446 :=
  ((byte_counter_starts_zero_monotone_sums sampleEnv sampleSched
    (by decide) (by decide) (by decide)).2.2).trans (by decide)

/-- Claim C4: (1) a dispatcher iteration that observes the set cancellation
flag only marks the loop finished — nothing is sent, nothing is submitted,
the unreached paths stay unreached; (2) once the dispatcher has stopped, no
later step sends a `FileStarted` or submits a job, so unreached files are
never reported; (3) a queued job that observes the set flag sends `Failed`
with the `"cancelled"` operation tag and returns leaving the byte counter
untouched (the analyzer is never consulted: the resulting state carries no
trace of it). -/
theorem cancellation_stops_dispatch_and_jobs
    (env : ProcEnv) (s : ProcState) (p : String) (ps rest : List String)
    (w : Nat) (sched : List PLabel) :
    (s.dispDone = false → s.rem = p :: ps → env.cancelAt ≤ s.time →
      procStep env s PLabel.disp =
        { s with dispDone := true, time := s.time + 1 }) ∧
    (s.dispDone = true →
      (runProc env s sched).rem = s.rem ∧
      startedList (runProc env s sched).chan = startedList s.chan ∧
      ∃ m, (runProc env s sched).queue = s.queue.drop m) ∧
    (s.queue = p :: rest → env.cancelAt ≤ s.time →
      (procStep env s (PLabel.work w)).bytes = s.bytes ∧
      (procStep env s (PLabel.work w)).chan = s.chan ++
        [ProgressMessage.fileFailed p
          { filename := p, operation := "cancelled",
            message := "Cancelled before start" }] ∧
      (procStep env s (PLabel.work w)).queue = rest) := by
  refine ⟨?_, ?_, ?_⟩
  · intro h1 h2 h3
    simp [procStep, h1, h2, h3]
  · intro h
    obtain ⟨_, b, c, d⟩ := runProc_dispDone env sched s h
    exact ⟨b, c, d⟩
  · intro h1 h2
    refine ⟨?_, ?_, ?_⟩ <;> simp [procStep, h1, h2]

/-- Witness for C4 on `cancelEnv` (flag set from step 1): the dispatcher's
second iteration halts without reaching `b.txt`, and the already-queued job
for `a.txt` fails with the `"cancelled"` tag, leaving the counter at its
old value. -/
theorem cancellation_stops_witness :
    (procStep cancelEnv cancelState PLabel.disp =
      { cancelState with dispDone := true, time := cancelState.time + 1 }) ∧
    (procStep cancelEnv cancelState (PLabel.work 0)).bytes = cancelState.bytes ∧
    (procStep cancelEnv cancelState (PLabel.work 0)).chan = cancelState.chan ++
      [ProgressMessage.fileFailed ("a.txt")
        { filename := "a.txt", operation := "cancelled",
          message := "Cancelled before start" }] :=
  ⟨(cancellation_stops_dispatch_and_jobs cancelEnv cancelState ("b.txt") [] [] 0
      []).1 (by decide) (by decide) (by decide),
   ((cancellation_stops_dispatch_and_jobs cancelEnv cancelState ("a.txt") [] [] 0
      []).2.2 (by decide) (by decide)).1,
   ((cancellation_stops_dispatch_and_jobs cancelEnv cancelState ("a.txt") [] [] 0
      []).2.2 (by decide) (by decide)).2.1⟩

/-- Claim C5: in every reachable channel log of a `process_dirs` call, a
per-job report (`FileCompleted` whose analysis names `p`, or
`FileFailed p`) occurs only strictly after a `FileStarted p`. -/
theorem started_strictly_before_report
    (env : ProcEnv) (sched : List PLabel) (k : Nat) (m : ProgressMessage)
    (p : String)
    (hk : (runProc env (procInit env) sched).chan.get? k = some m)
    (hm : isJobMsgFor p m = true) :
    ∃ i, i < k ∧ (runProc env (procInit env) sched).chan.get? i =
      some (ProgressMessage.fileStarted p) :=
  (procInv_run env sched (procInit env) (procInv_init env)).horder k m hk p hm

/-- Witness for C5: after one dispatch and one job execution the
`FileCompleted` for `a.txt` sits at index 2, and the theorem produces its
`FileStarted` strictly earlier. -/
theorem started_strictly_before_report_witness :
    ∃ i, i < 2 ∧
      (runProc sampleEnv (procInit sampleEnv)
        [PLabel.disp, PLabel.work 0]).chan.get? i =
        some (ProgressMessage.fileStarted ("a.txt")) :=
  started_strictly_before_report sampleEnv [PLabel.disp, PLabel.work 0] 2
    (ProgressMessage.fileCompleted (analyze_file sampleFs ("a.txt"))) ("a.txt")
    (by decide) (by decide)

/-- Claim C6 counterexample: the claim says that when opening the file fails
entirely the result carries *zero stats*.  But `analyze_file` reads the
metadata *before* attempting the open, so on a file whose metadata reports
100 bytes while `File::open` is denied, the early-return stats carry
`size_bytes = 100` — not the all-zero `FileStats::new`. -/
theorem open_fail_zero_stats_counterexample :
    (analyze_file fsOpenDenied ("f.txt")).stats ≠ FileStats.new := by decide

/-- Claim C6 amended: when the open fails entirely, `analyze_file` still
returns (it never propagates a failure): a result with zero word/line
counts and empty frequencies, `size_bytes` equal to the metadata-reported
size when metadata succeeded (zero otherwise), and a non-empty error list
containing the `"open"` error.  On the processor side a job that runs
uncancelled always reports the file via `FileCompleted` carrying that
result — never via `FileFailed`. -/
theorem open_fail_reported_completed_with_errors
    (fs : String → FileDesc) (path : String) (e : String) (env : ProcEnv)
    (s : ProcState) (p : String) (rest : List String) (w : Nat)
    (hopen : (fs path).openResult = Except.error e) :
    ((analyze_file fs path).stats.word_count = 0 ∧
     (analyze_file fs path).stats.line_count = 0 ∧
     (analyze_file fs path).stats.char_frequencies = [] ∧
     (analyze_file fs path).stats.size_bytes =
       (fs path).metadata.toOption.getD 0 ∧
     (analyze_file fs path).errors ≠ [] ∧
     ({ filename := path, operation := "open", message := e } :
       ProcessingError) ∈ (analyze_file fs path).errors) ∧
    (s.queue = p :: rest → ¬ env.cancelAt ≤ s.time →
      (procStep env s (PLabel.work w)).chan =
        s.chan ++ [ProgressMessage.fileCompleted (analyze_file env.fs p)]) := by
  constructor
  · cases hmeta : (fs path).metadata <;>
      simp [analyze_file, hopen, hmeta, FileStats.new, Except.toOption]
  · intro h1 h2
    simp [procStep, h1, h2]

/-- Witness for the amended C6: the denied-open file is reported with its
`"open"` error, and an uncancelled job reports `a.txt` via `FileCompleted`. -/
theorem open_fail_reported_completed_witness :
    ({ filename := "f.txt", operation := "open", message := "denied" } :
      ProcessingError) ∈ (analyze_file fsOpenDenied ("f.txt")).errors ∧
    (procStep sampleEnv dispatched1 (PLabel.work 0)).chan =
      dispatched1.chan ++
        [ProgressMessage.fileCompleted (analyze_file sampleEnv.fs ("a.txt"))] :=
  ⟨(open_fail_reported_completed_with_errors fsOpenDenied ("f.txt") ("denied")
      sampleEnv dispatched1 ("a.txt") [] 0 (by rfl)).1.2.2.2.2.2,
   (open_fail_reported_completed_with_errors fsOpenDenied ("f.txt") ("denied")
      sampleEnv dispatched1 ("a.txt") [] 0 (by rfl)).2 (by decide) (by decide)⟩

/-- Claim C9: each persistence write stores *exactly* the string
`{"completed":C,"total":T}` — the rendering of a JSON object with exactly
the two integer fields `completed` and `total` — replacing the file's
previous contents wholesale (the new contents do not depend on the old);
and a write failure is invisible: the entire observable run (channel,
dispatch state, queue, byte counter) is identical whatever the outcomes of
the writes. -/
theorem persist_exact_json_overwrite_swallowed
    (c t : Nat) (env : ProcEnv) (s : ProcState) (p : String) (ps : List String)
    (po po2 : Nat → Bool) (sched : List PLabel) :
    (persist_progress c t = jsonIntObj [("completed", c), ("total", t)]) ∧
    (s.dispDone = false → s.rem = p :: ps → ¬ env.cancelAt ≤ s.time →
      env.persistOk s.persistCount = true →
      (procStep env s PLabel.disp).persistFile =
        some (persist_progress (s.completed + 1) env.paths.length)) ∧
    (observables (runProc { env with persistOk := po }
        (procInit { env with persistOk := po }) sched) =
      observables (runProc { env with persistOk := po2 }
        (procInit { env with persistOk := po2 }) sched)) := by
  refine ⟨?_, ?_, ?_⟩
  · have e1 : ("\x7b" : String) ++ ("\"" ++ ("completed" ++ "\":")) =
        "\x7b\"completed\":" := by decide
    have e2 : ("," : String) ++ ("\"" ++ ("total" ++ "\":")) =
        ",\"total\":" := by decide
    simp only [persist_progress, jsonIntObj, String.intercalate,
      String.intercalate.go, List.map_cons, List.map_nil]
    rw [← e1, ← e2]
    simp only [String.append_assoc]
  · intro h1 h2 h3 h4
    simp [procStep, h1, h2, h3, h4]
  · rw [observables_run, observables_run]
    rfl

/-- Witness for C9: `persist_progress 3 7` renders the exact two-field JSON
object, and the first dispatch iteration on `sampleEnv` persists
`{"completed":1,"total":3}`. -/
theorem persist_exact_json_witness :
    persist_progress 3 7 = jsonIntObj [("completed", 3), ("total", 7)] ∧
    (procStep sampleEnv (procInit sampleEnv) PLabel.disp).persistFile =
      some (persist_progress 1 3) :=
  ⟨(persist_exact_json_overwrite_swallowed 3 7 sampleEnv (procInit sampleEnv)
      ("a.txt") ["b.txt", "c.txt"] (fun _ => true) (fun _ => true) []).1,
   (persist_exact_json_overwrite_swallowed 3 7 sampleEnv (procInit sampleEnv)
      ("a.txt") ["b.txt", "c.txt"] (fun _ => true) (fun _ => true) []).2.1
     (by decide) (by decide) (by decide) (by decide)⟩

end FileProcessor
